import Mathlib

/-
Shallow embedding of src/python/prickle/native/prickle_metal.cpp.

The file models the mutable global state of the runtime

    static MTL::Device *device;
    static MTL::CommandQueue *cq;
    static MTL::CommandBuffer *cb;
    static MTL::ComputeCommandEncoder *ce;
    static int64_t queue_cap = 0;
    static int64_t queue_size = 0;

as an explicit record `MetalState`, and the operations `prickle_init`,
`launch_kernel`, `submit_work`, `sync`, `copy` / `prickle_memcpy` as
state-passing functions.  Calls into Metal that can fail (device lookup,
queue / command-buffer / encoder / pipeline creation) are modelled with
explicit boolean oracles saying whether the call succeeds; a fatal
`fprintf + exit(1)` (or a failed `assert`) is an `Except.error` carrying
the state at the moment of termination.  Device-side effects that the
runtime merely issues (releases, commits, dispatches, buffer bindings)
are recorded in an event trace so that theorems can speak about what was
issued and in which order.  Command buffers and encoders are given fresh
numeric identities drawn from counters, so that reuse across submissions
is observable.
-/

namespace PrickleMetal

/-- Status of a Metal command buffer as far as this runtime observes it:
`MTL::CommandBufferStatusNotEnqueued` right after creation, and a
committed/scheduled status after `submit_work` ran `commit()` and
`waitUntilScheduled()` (the only status fact the code ever tests is
whether the status is still `NotEnqueued`). -/
inductive CBStatus where
  | notEnqueued
  | scheduled
deriving DecidableEq, Repr

/-- A command buffer: a fresh identity plus its observed status. -/
structure CmdBuf where
  id : Nat
  status : CBStatus
deriving DecidableEq, Repr

/-- One device-facing action issued by the runtime, in program order. -/
inductive Event where
  | release_cb (id : Nat)
  | newCommandBuffer (id : Nat)
  | newComputeCommandEncoder (id : Nat)
  | setComputePipelineState
  | setBuffer (buf : Nat) (slot : Nat)
  | dispatchThreads (gx gy gz tx ty tz : Int)
  | endEncoding (id : Nat)
  | commit (id : Nat)
  | waitUntilScheduled (id : Nat)
  | release_ce (id : Nat)
  | waitUntilCompleted (id : Nat)
deriving DecidableEq, Repr

/-- The global mutable state of prickle_metal.cpp.  `device`/`cq` record
whether the corresponding static pointer is non-null; `cb`/`ce` are the
single open command buffer / encoder slots (the statics are single
pointers, so at most one of each can exist); `nextCb`/`nextCe` supply
fresh identities; `events` is the trace of issued device actions. -/
structure MetalState where
  device : Bool
  cq : Bool
  cb : Option CmdBuf
  ce : Option Nat
  queue_cap : Int
  queue_size : Int
  nextCb : Nat
  nextCe : Nat
  events : List Event
deriving DecidableEq, Repr

/-- Zero-initialized statics at process start. -/
def initialState : MetalState :=
  { device := false, cq := false, cb := none, ce := none,
    queue_cap := 0, queue_size := 0, nextCb := 0, nextCe := 0, events := [] }

/-- The fatal exits of the runtime (each is an `fprintf(stderr, ...)`
followed by `exit(1)`, or the failed `assert` in `launch_kernel`). -/
inductive Fatal where
  | commandQueueSetup
  | commandBufferSetup
  | encoderSetup
  | pipelineSetup
  | simdWidthUnsupported
  | assertionFailure
deriving DecidableEq, Repr

/-- The condition `cb == nullptr || cb->status() != MTL::CommandBufferStatusNotEnqueued`
from `launch_kernel`: the current command buffer slot cannot accept
further encoding. -/
def cbStale : Option CmdBuf → Bool
  | none => true
  | some b => b.status != CBStatus.notEnqueued

/-- A command buffer is open iff the slot holds one that is still
`NotEnqueued` (negation of `cbStale`). -/
def cbOpen (s : MetalState) : Bool := !cbStale s.cb

/-- Identity of the buffer in the slot.  `submit_work` only dereferences
`cb` when `ce` is non-null, and the state invariant proved below shows
`ce` non-null implies `cb` non-null, so the `none` default is never
reached from a reachable state. -/
def cbIdOf : Option CmdBuf → Nat
  | some b => b.id
  | none => 0

/-- `prickle_init(int64_t queue_capacity)`.  `deviceAvail` says whether
`MTL::CreateSystemDefaultDevice()` returns a device, `queueOk` whether
`newCommandQueue` succeeds on an actual device.  Note the source checks
only `cq == nullptr`: when no device exists, `device->newCommandQueue`
is a message to a nil receiver, which yields nil (Objective-C nil
messaging, the semantics metal-cpp compiles to), so the no-device case
also lands in the queue-setup failure exit. -/
def prickle_init (queue_capacity : Int) (deviceAvail queueOk : Bool)
    (s : MetalState) : Except (Fatal × MetalState) MetalState :=
  if s.device = false then
    let s1 := { s with device := deviceAvail, queue_cap := queue_capacity,
                       cq := deviceAvail && queueOk }
    if deviceAvail && queueOk then Except.ok s1
    else Except.error (Fatal.commandQueueSetup, s1)
  else Except.ok s

/-- `submit_work()`: if an encoder is open, end encoding, commit the
command buffer, wait until it is scheduled, release the encoder and
reset the pending count.  The command buffer slot keeps its buffer (now
with a non-`NotEnqueued` status); the source does not release it here. -/
def submit_work (s : MetalState) : MetalState :=
  match s.ce with
  | some ceId =>
    let cbId := cbIdOf s.cb
    { s with
      cb := s.cb.map (fun b => { b with status := CBStatus.scheduled }),
      ce := none,
      queue_size := 0,
      events := s.events ++
        [Event.endEncoding ceId, Event.commit cbId,
         Event.waitUntilScheduled cbId, Event.release_ce ceId] }
  | none => s

/-- `sync()`: submit any open work, then, if a command buffer exists,
wait until the device completed it and release it. -/
def sync (s : MetalState) : MetalState :=
  let s1 := submit_work s
  match s1.cb with
  | some b =>
    { s1 with
      cb := none,
      events := s1.events ++ [Event.waitUntilCompleted b.id, Event.release_cb b.id] }
  | none => s1

/-- The facts `launch_kernel` reads off the compute pipeline state built
for a kernel: whether `newComputePipelineState` succeeds, the value of
`threadExecutionWidth()`, and `maxTotalThreadsPerThreadgroup()`
(an `NS::UInteger`). -/
structure KernelFun where
  pipelineOk : Bool
  threadExecutionWidth : Nat
  maxTotalThreadsPerThreadgroup : Nat
deriving DecidableEq, Repr

/-- Conversion of an `int64_t` value to `NS::UInteger` (64-bit unsigned)
as performed by the comparison in the `assert` of `launch_kernel`:
reduction modulo 2^64. -/
def wrap64 (v : Int) : Nat := (v % (2 : Int) ^ 64).toNat

/-- The `cb->release()` call guarded by `if (cb != nullptr)` when
`launch_kernel` replaces a stale command buffer. -/
def releaseEvents : Option CmdBuf → List Event
  | some b => [Event.release_cb b.id]
  | none => []

/-- The device actions recorded while encoding one dispatch: bind the
pipeline state, bind each argument buffer to its positional slot, then
`dispatchThreads` with grid `(block_x*thread_x, block_y*thread_y,
block_z*thread_z)` and thread-group size `(thread_x, thread_y, thread_z)`. -/
def encodeEvents (args : List Nat)
    (block_x block_y block_z thread_x thread_y thread_z : Int) : List Event :=
  [Event.setComputePipelineState] ++
  (args.enum.map fun p => Event.setBuffer p.2 p.1) ++
  [Event.dispatchThreads (block_x * thread_x) (block_y * thread_y)
     (block_z * thread_z) thread_x thread_y thread_z]

/-- `launch_kernel(kernel, args, block_x..z, thread_x..z)`.  `cbOk` and
`ceOk` say whether `cq->commandBuffer()` resp. `cb->computeCommandEncoder()`
return non-null on a live queue; a command buffer can only materialize
when the queue exists (`cq->commandBuffer()` on a nil queue yields nil). -/
def launch_kernel (kernel : KernelFun) (args : List Nat)
    (block_x block_y block_z thread_x thread_y thread_z : Int)
    (cbOk ceOk : Bool) (s0 : MetalState) :
    Except (Fatal × MetalState) MetalState := do
  -- if (cb == nullptr || cb->status() != MTL::CommandBufferStatusNotEnqueued)
  let s1 ←
    if cbStale s0.cb then
      -- if (cb != nullptr) cb->release();
      let sA := { s0 with
                  cb := none,
                  events := s0.events ++ releaseEvents s0.cb }
      -- cb = cq->commandBuffer();
      if s0.cq && cbOk then
        pure { sA with
               cb := some ⟨sA.nextCb, CBStatus.notEnqueued⟩,
               nextCb := sA.nextCb + 1,
               events := sA.events ++ [Event.newCommandBuffer sA.nextCb] }
      else throw (Fatal.commandBufferSetup, sA)
    else pure s0
  -- if (ce == nullptr) { ce = cb->computeCommandEncoder(); ... }
  let s2 ←
    match s1.ce with
    | none =>
      if ceOk then
        pure { s1 with
               ce := some s1.nextCe,
               nextCe := s1.nextCe + 1,
               events := s1.events ++ [Event.newComputeCommandEncoder s1.nextCe] }
      else throw (Fatal.encoderSetup, s1)
    | some _ => pure s1
  -- state = device->newComputePipelineState(kernel, &err)
  let s3 ←
    if kernel.pipelineOk then pure s2
    else throw (Fatal.pipelineSetup, s2)
  -- ce->setComputePipelineState(state);
  -- for (int i = 0; i < args.size(); i++) ce->setBuffer(args[i], 0, i);
  let s4 := { s3 with events := s3.events ++
                [Event.setComputePipelineState] ++
                (args.enum.map fun p => Event.setBuffer p.2 p.1) }
  -- int simd_width = state->threadExecutionWidth(); if (simd_width != 32) exit
  let s5 ←
    if kernel.threadExecutionWidth ≠ 32 then
      throw (Fatal.simdWidthUnsupported, s4)
    else pure s4
  -- assert(thread_x * thread_y * thread_z <= maxthreads);
  -- the signed product converts to NS::UInteger for the comparison
  let s6 ←
    if wrap64 (thread_x * thread_y * thread_z) ≤ kernel.maxTotalThreadsPerThreadgroup
    then pure s5
    else throw (Fatal.assertionFailure, s5)
  -- ce->dispatchThreads(grid_size, block_size);
  let s7 := { s6 with events := s6.events ++
                [Event.dispatchThreads (block_x * thread_x) (block_y * thread_y)
                   (block_z * thread_z) thread_x thread_y thread_z] }
  -- if (++queue_size == queue_cap) submit_work();
  let s8 := { s7 with queue_size := s7.queue_size + 1 }
  if s8.queue_size = s8.queue_cap then pure (submit_work s8) else pure s8

/-- Iterated `launch_kernel` with fixed kernel, arguments, geometry and
oracles: `launchIter ... s n` performs `n` consecutive launch calls. -/
def launchIter (kernel : KernelFun) (args : List Nat)
    (block_x block_y block_z thread_x thread_y thread_z : Int)
    (cbOk ceOk : Bool) (s : MetalState) :
    Nat → Except (Fatal × MetalState) MetalState
  | 0 => Except.ok s
  | n + 1 => do
    let s1 ← launchIter kernel args block_x block_y block_z
      thread_x thread_y thread_z cbOk ceOk s n
    launch_kernel kernel args block_x block_y block_z
      thread_x thread_y thread_z cbOk ceOk s1

/-- The state produced by a successful first `prickle_init(c)`. -/
def readyState (c : Int) : MetalState :=
  { initialState with device := true, cq := true, queue_cap := c }

/-- Project the carried state out of a launch result (on a fatal error,
the state at the exit). -/
def okOr (r : Except (Fatal × MetalState) MetalState) : MetalState :=
  match r with
  | Except.ok s => s
  | Except.error p => p.2

/-! ### Host/device byte copy

`prickle_memcpy` and `prickle_metal::copy` act on host-visible memory,
modelled as a total map from byte addresses to byte values.  A `void*`
argument of `copy` is a pointer value that, when the corresponding mode
bit is set, is reinterpreted as an `MTL::Buffer*` and dereferenced via
`contents()`; `contents` is `some a` exactly when the pointee really is
a buffer object whose data starts at address `a`, so reinterpreting a
non-buffer pointer (type confusion, undefined in the source) yields
`none`. -/

/-- A `void*` argument of `copy`: the raw pointer value, and, when it
actually points at an `MTL::Buffer`, the address of that buffer's
contents. -/
structure CPtr where
  raw : Int
  contents : Option Int
deriving DecidableEq, Repr

/-- `prickle_memcpy(dst, src, nbytes)`: byte-for-byte copy of `nbytes`
bytes from `src` to `dst` (the functional semantics of `memcpy` on
non-overlapping regions). -/
def prickle_memcpy (mem : Int → Nat) (dst src nbytes : Int) : Int → Nat :=
  fun a => if dst ≤ a ∧ a < dst + nbytes then mem (src + (a - dst)) else mem a

/-- `prickle_metal::copy(dst, src, nbytes, k)`.  On a two's-complement
`int64_t`, `k & 1 != 0` holds iff `k % 2 = 1` and `k & 2 != 0` holds iff
`k % 4 ≥ 2` (with the Euclidean `%` of `Int`, which agrees with the low
bits of the two's-complement representation for negative `k` as well). -/
def copy (mem : Int → Nat) (dst src : CPtr) (nbytes k : Int) :
    Option (Int → Nat) := do
  -- dst = k & 1 ? ((MTL::Buffer*)dst)->contents() : dst;
  let d ← if k % 2 = 1 then dst.contents else some dst.raw
  -- src = k & 2 ? ((MTL::Buffer*)src)->contents() : src;
  let s ← if k % 4 ≥ 2 then src.contents else some src.raw
  some (prickle_memcpy mem d s nbytes)

/-- The `n` bytes stored at addresses `a, a+1, ..., a+n-1`. -/
def readBytes (mem : Int → Nat) (a : Int) (n : Nat) : List Nat :=
  (List.range n).map fun (i : Nat) => mem (a + (i : Int))

/-! ### Trace observations and spec-level state predicates -/

/-- Identities of command buffers committed so far, in commit order. -/
def commitIds (evs : List Event) : List Nat :=
  evs.filterMap fun e => match e with
    | Event.commit i => some i
    | _ => none

/-- Identities of encoders sealed (`endEncoding`) so far, in order. -/
def endIds (evs : List Event) : List Nat :=
  evs.filterMap fun e => match e with
    | Event.endEncoding i => some i
    | _ => none

/-- Number of batch submissions issued so far. -/
def commitCount (evs : List Event) : Nat := (commitIds evs).length

/-- Number of `dispatchThreads` commands issued so far. -/
def dispatchCount (evs : List Event) : Nat :=
  evs.countP fun e => match e with
    | Event.dispatchThreads _ _ _ _ _ _ => true
    | _ => false

/-- Number of `release` calls issued on command buffers so far. -/
def releaseCbCount (evs : List Event) : Nat :=
  evs.countP fun e => match e with
    | Event.release_cb _ => true
    | _ => false

/-- The Idle state of the batching unit (spec section 4.5): no open
command buffer, no open encoder, pending count 0. -/
def IdleState (s : MetalState) : Prop :=
  cbOpen s = false ∧ s.ce = none ∧ s.queue_size = 0

/-- The Open state of the batching unit (spec section 4.5): buffer and
encoder exist, `0 ≤ pending < N`. -/
def OpenState (s : MetalState) : Prop :=
  cbOpen s = true ∧ s.ce.isSome = true ∧
    0 ≤ s.queue_size ∧ s.queue_size < s.queue_cap

/-! ### Reachability

One step of the public protocol: a successful `prickle_init` (the spec's
interface, section 6, requires a positive batch capacity, so the step
carries that precondition), a successful `launch_kernel` with arbitrary
kernel, arguments, geometry and oracle outcomes, a `submit_work`, or a
`sync`.  Fatal exits terminate the process, so only `.ok` results
produce a successor state. -/
inductive Step : MetalState → MetalState → Prop where
  | init (c : Int) (da qo : Bool) (s s' : MetalState) :
      1 ≤ c → prickle_init c da qo s = Except.ok s' → Step s s'
  | launch (k : KernelFun) (args : List Nat)
      (b1 b2 b3 t1 t2 t3 : Int) (cbOk ceOk : Bool) (s s' : MetalState) :
      launch_kernel k args b1 b2 b3 t1 t2 t3 cbOk ceOk s = Except.ok s' →
      Step s s'
  | submit (s : MetalState) : Step s (submit_work s)
  | syncStep (s : MetalState) : Step s (sync s)

/-- States reachable from the zero-initialized statics by any sequence
of `init`, `launch`, `submit`, `sync` calls. -/
def Reachable (s : MetalState) : Prop :=
  Relation.ReflTransGen Step initialState s

/-! ### Basic reduction lemmas -/

@[simp]
lemma ok_bind {ε α β : Type} (a : α) (f : α → Except ε β) :
    (Except.ok a >>= f) = f a := rfl

@[simp]
lemma error_bind {ε α β : Type} (e : ε) (f : α → Except ε β) :
    ((Except.error e : Except ε α) >>= f) = Except.error e := rfl

@[simp]
lemma pure_eq_ok {ε α : Type} (a : α) : (pure a : Except ε α) = Except.ok a := rfl

@[simp]
lemma throw_eq_error {ε α : Type} (e : ε) :
    (throw e : Except ε α) = Except.error e := rfl

@[simp]
lemma commitIds_append (a b : List Event) :
    commitIds (a ++ b) = commitIds a ++ commitIds b := by
  simp [commitIds]

@[simp]
lemma endIds_append (a b : List Event) :
    endIds (a ++ b) = endIds a ++ endIds b := by
  simp [endIds]

@[simp]
lemma dispatchCount_append (a b : List Event) :
    dispatchCount (a ++ b) = dispatchCount a + dispatchCount b := by
  simp [dispatchCount, List.countP_append]

@[simp]
lemma releaseCbCount_append (a b : List Event) :
    releaseCbCount (a ++ b) = releaseCbCount a + releaseCbCount b := by
  simp [releaseCbCount, List.countP_append]

@[simp]
lemma commitIds_setBuffers (l : List (Nat × Nat)) :
    commitIds (l.map fun p => Event.setBuffer p.2 p.1) = [] := by
  induction l with
  | nil => rfl
  | cons h t ih => simp [commitIds, List.filterMap_cons, ih]

@[simp]
lemma endIds_setBuffers (l : List (Nat × Nat)) :
    endIds (l.map fun p => Event.setBuffer p.2 p.1) = [] := by
  induction l with
  | nil => rfl
  | cons h t ih => simp [endIds, List.filterMap_cons, ih]

@[simp]
lemma dispatchCount_setBuffers (l : List (Nat × Nat)) :
    dispatchCount (l.map fun p => Event.setBuffer p.2 p.1) = 0 := by
  induction l with
  | nil => rfl
  | cons h t ih => simp [dispatchCount, List.countP_cons, ih]

@[simp]
lemma commitIds_releaseEvents (cb : Option CmdBuf) :
    commitIds (releaseEvents cb) = [] := by
  cases cb <;> simp [releaseEvents, commitIds, List.filterMap_cons]

@[simp]
lemma endIds_releaseEvents (cb : Option CmdBuf) :
    endIds (releaseEvents cb) = [] := by
  cases cb <;> simp [endIds, releaseEvents, List.filterMap_cons]

@[simp]
lemma dispatchCount_releaseEvents (cb : Option CmdBuf) :
    dispatchCount (releaseEvents cb) = 0 := by
  cases cb <;> simp [dispatchCount, releaseEvents, List.countP_cons]

@[simp]
lemma commitIds_encodeEvents (args : List Nat) (b1 b2 b3 t1 t2 t3 : Int) :
    commitIds (encodeEvents args b1 b2 b3 t1 t2 t3) = [] := by
  simp [encodeEvents, commitIds, List.filterMap_cons]

@[simp]
lemma endIds_encodeEvents (args : List Nat) (b1 b2 b3 t1 t2 t3 : Int) :
    endIds (encodeEvents args b1 b2 b3 t1 t2 t3) = [] := by
  simp [encodeEvents, endIds, List.filterMap_cons]

/-- `submit_work` always leaves the encoder slot empty. -/
@[simp]
lemma submit_work_ce (s : MetalState) : (submit_work s).ce = none := by
  cases h : s.ce <;> simp [submit_work, h]

@[simp]
lemma commitIds_submitBlock (e i : Nat) :
    commitIds [Event.endEncoding e, Event.commit i,
      Event.waitUntilScheduled i, Event.release_ce e] = [i] := rfl

@[simp]
lemma endIds_submitBlock (e i : Nat) :
    endIds [Event.endEncoding e, Event.commit i,
      Event.waitUntilScheduled i, Event.release_ce e] = [e] := rfl

@[simp]
lemma commitIds_syncBlock (i : Nat) :
    commitIds [Event.waitUntilCompleted i, Event.release_cb i] = [] := rfl

@[simp]
lemma endIds_syncBlock (i : Nat) :
    endIds [Event.waitUntilCompleted i, Event.release_cb i] = [] := rfl

/-- Explicit form of `submit_work` on a state with an open encoder and
command buffer. -/
lemma submit_work_eq (s : MetalState) (e : Nat) (b : CmdBuf)
    (hce : s.ce = some e) (hcb : s.cb = some b) :
    submit_work s = { s with
      cb := some ⟨b.id, CBStatus.scheduled⟩,
      ce := none,
      queue_size := 0,
      events := s.events ++
        [Event.endEncoding e, Event.commit b.id,
         Event.waitUntilScheduled b.id, Event.release_ce e] } := by
  rw [submit_work, hce]
  simp [hcb, cbIdOf]

/-! ### Characterization of successful launches -/

/-- A launch from a state whose command buffer is open and whose encoder
exists (the Open state): no resources are created, the dispatch is
encoded, the pending count goes up by one, and if it thereby reaches the
capacity the batch is submitted within the same call. -/
lemma launch_kernel_open (k : KernelFun) (args : List Nat)
    (b1 b2 b3 t1 t2 t3 : Int) (cbOk ceOk : Bool) (s : MetalState)
    (b : CmdBuf) (e : Nat)
    (hcb : s.cb = some b) (hst : b.status = CBStatus.notEnqueued)
    (hce : s.ce = some e)
    (hpipe : k.pipelineOk = true) (hw : k.threadExecutionWidth = 32)
    (hgeom : wrap64 (t1 * t2 * t3) ≤ k.maxTotalThreadsPerThreadgroup) :
    launch_kernel k args b1 b2 b3 t1 t2 t3 cbOk ceOk s =
      (if s.queue_size + 1 = s.queue_cap
       then Except.ok (submit_work { s with
         queue_size := s.queue_size + 1,
         events := s.events ++ encodeEvents args b1 b2 b3 t1 t2 t3 })
       else Except.ok { s with
         queue_size := s.queue_size + 1,
         events := s.events ++ encodeEvents args b1 b2 b3 t1 t2 t3 }) := by
  unfold launch_kernel
  simp [cbStale, hcb, hst, hce, hpipe, hw, hgeom, encodeEvents]

/-- A launch from a state whose command buffer slot is stale (empty, or
holding an already-submitted buffer) and whose encoder slot is empty:
the old buffer (if any) is released, a fresh buffer and a fresh encoder
are created, the dispatch is encoded, the pending count goes up by one,
and if it thereby reaches the capacity the batch is submitted within the
same call. -/
lemma launch_kernel_fresh (k : KernelFun) (args : List Nat)
    (b1 b2 b3 t1 t2 t3 : Int) (s : MetalState)
    (hstale : cbStale s.cb = true) (hce : s.ce = none) (hcq : s.cq = true)
    (hpipe : k.pipelineOk = true) (hw : k.threadExecutionWidth = 32)
    (hgeom : wrap64 (t1 * t2 * t3) ≤ k.maxTotalThreadsPerThreadgroup) :
    launch_kernel k args b1 b2 b3 t1 t2 t3 true true s =
      (if s.queue_size + 1 = s.queue_cap
       then Except.ok (submit_work { s with
         cb := some ⟨s.nextCb, CBStatus.notEnqueued⟩,
         ce := some s.nextCe,
         nextCb := s.nextCb + 1,
         nextCe := s.nextCe + 1,
         queue_size := s.queue_size + 1,
         events := s.events ++ releaseEvents s.cb ++
           [Event.newCommandBuffer s.nextCb,
            Event.newComputeCommandEncoder s.nextCe] ++
           encodeEvents args b1 b2 b3 t1 t2 t3 })
       else Except.ok { s with
         cb := some ⟨s.nextCb, CBStatus.notEnqueued⟩,
         ce := some s.nextCe,
         nextCb := s.nextCb + 1,
         nextCe := s.nextCe + 1,
         queue_size := s.queue_size + 1,
         events := s.events ++ releaseEvents s.cb ++
           [Event.newCommandBuffer s.nextCb,
            Event.newComputeCommandEncoder s.nextCe] ++
           encodeEvents args b1 b2 b3 t1 t2 t3 }) := by
  unfold launch_kernel
  simp [hstale, hce, hcq, hpipe, hw, hgeom, encodeEvents]

/-! ### The state invariant -/

/-- Bookkeeping facts preserved by every operation: the queue exists
once the device does; before `prickle_init` succeeds nothing else
exists; an encoder exists exactly when a command buffer is open; every
committed command-buffer identity and every sealed encoder identity is
below the corresponding fresh-identity counter and occurs at most once
(so no buffer or encoder is ever submitted twice); and the identities
in the current slots are fresh in that same sense. -/
structure WFCore (s : MetalState) : Prop where
  dev_cq : s.device = true → s.cq = true ∧ 1 ≤ s.queue_cap
  uninit : s.device = false →
    s.cq = false ∧ s.cb = none ∧ s.ce = none ∧ s.queue_size = 0
  enc_iff : s.ce.isSome = cbOpen s
  commit_nodup : (commitIds s.events).Nodup
  commit_lt : ∀ i ∈ commitIds s.events, i < s.nextCb
  cb_fresh : ∀ b, s.cb = some b → b.id < s.nextCb ∧
    (b.status = CBStatus.notEnqueued → b.id ∉ commitIds s.events)
  end_nodup : (endIds s.events).Nodup
  end_lt : ∀ i ∈ endIds s.events, i < s.nextCe
  ce_fresh : ∀ e, s.ce = some e → e < s.nextCe ∧ e ∉ endIds s.events

/-- The full state invariant: bookkeeping plus the pending-count bounds
`0 ≤ queue_size` and, once initialized, `queue_size < queue_cap`. -/
structure WF (s : MetalState) extends WFCore s : Prop where
  qs_nonneg : 0 ≤ s.queue_size
  qs_lt : s.device = true → s.queue_size < s.queue_cap

lemma wf_initial : WF initialState := by
  refine ⟨⟨?_, ?_, ?_, ?_, ?_, ?_, ?_, ?_, ?_⟩, ?_, ?_⟩ <;>
    simp [initialState, cbOpen, cbStale, commitIds, endIds]

/-- Any state with an encoder has its device constructed. -/
lemma device_of_ce (s : MetalState) (hwf : WFCore s) (e : Nat)
    (hce : s.ce = some e) : s.device = true := by
  cases hd : s.device with
  | true => rfl
  | false => simp [(hwf.uninit hd).2.2.1] at hce

/-- Any state with a live command queue has its device constructed. -/
lemma device_of_cq (s : MetalState) (hwf : WFCore s) (hcq : s.cq = true) :
    s.device = true := by
  cases hd : s.device with
  | true => rfl
  | false => simp [(hwf.uninit hd).1] at hcq

/-- An open encoder implies an open (still `NotEnqueued`) buffer. -/
lemma open_of_ce (s : MetalState) (hwf : WFCore s) (e : Nat)
    (hce : s.ce = some e) :
    ∃ b, s.cb = some b ∧ b.status = CBStatus.notEnqueued := by
  have hopen : cbOpen s = true := by rw [← hwf.enc_iff, hce, Option.isSome_some]
  cases hcb : s.cb with
  | none => simp [cbOpen, cbStale, hcb] at hopen
  | some b =>
    refine ⟨b, rfl, ?_⟩
    cases hst : b.status with
    | notEnqueued => rfl
    | scheduled => simp [cbOpen, cbStale, hcb, hst] at hopen

/-- `submit_work` from a state with an open encoder preserves the full
invariant (the pending count is reset to zero). -/
lemma wf_submit_some (s : MetalState) (e : Nat) (hce : s.ce = some e)
    (hwfc : WFCore s) : WF (submit_work s) := by
  obtain ⟨b, hcb, hst⟩ := open_of_ce s hwfc e hce
  have hdev : s.device = true := device_of_ce s hwfc e hce
  have hcap : 1 ≤ s.queue_cap := (hwfc.dev_cq hdev).2
  have hbid := hwfc.cb_fresh b hcb
  have heid := hwfc.ce_fresh e hce
  rw [submit_work_eq s e b hce hcb]
  refine ⟨⟨?_, ?_, ?_, ?_, ?_, ?_, ?_, ?_, ?_⟩, ?_, ?_⟩
  · intro _; exact hwfc.dev_cq hdev
  · intro hd; rw [hdev] at hd; cases hd
  · simp [cbOpen, cbStale]
  · simp only [commitIds_append, commitIds_submitBlock]
    rw [List.nodup_append]
    refine ⟨hwfc.commit_nodup, List.nodup_singleton _, fun a ha hb => ?_⟩
    rw [List.mem_singleton] at hb
    subst hb
    exact (hbid.2 hst) ha
  · intro i hi
    simp only [commitIds_append, commitIds_submitBlock, List.mem_append,
      List.mem_singleton] at hi
    show i < s.nextCb
    rcases hi with hi | hi
    · exact hwfc.commit_lt i hi
    · omega
  · intro b' hb'
    simp only [Option.some.injEq] at hb'
    constructor
    · show b'.id < s.nextCb
      rw [← hb']; exact hbid.1
    · intro hst'; rw [← hb'] at hst'; cases hst'
  · simp only [endIds_append, endIds_submitBlock]
    rw [List.nodup_append]
    refine ⟨hwfc.end_nodup, List.nodup_singleton _, fun a ha hb => ?_⟩
    rw [List.mem_singleton] at hb
    subst hb
    exact heid.2 ha
  · intro i hi
    simp only [endIds_append, endIds_submitBlock, List.mem_append,
      List.mem_singleton] at hi
    show i < s.nextCe
    rcases hi with hi | hi
    · exact hwfc.end_lt i hi
    · omega
  · intro e' he'; cases he'
  · simp
  · intro _
    show (0 : Int) < s.queue_cap
    omega

/-- `submit_work` preserves the invariant. -/
lemma wf_submit (s : MetalState) (hwf : WF s) : WF (submit_work s) := by
  cases hce : s.ce with
  | none => rw [submit_work, hce]; exact hwf
  | some e => exact wf_submit_some s e hce hwf.toWFCore

/-- Explicit form of `sync` when a command buffer remains after the
submit: it is waited on and released. -/
lemma sync_eq_release (s : MetalState) (b : CmdBuf)
    (hcb : (submit_work s).cb = some b) :
    sync s = { submit_work s with
      cb := none,
      events := (submit_work s).events ++
        [Event.waitUntilCompleted b.id, Event.release_cb b.id] } := by
  rw [sync]
  simp [hcb]

/-- `sync` preserves the invariant. -/
lemma wf_sync (s : MetalState) (hwf : WF s) : WF (sync s) := by
  have h1 : WF (submit_work s) := wf_submit s hwf
  cases hcb : (submit_work s).cb with
  | none =>
    have : sync s = submit_work s := by rw [sync]; simp [hcb]
    rw [this]; exact h1
  | some b =>
    have hce : (submit_work s).ce = none := submit_work_ce s
    rw [sync_eq_release s b hcb]
    refine ⟨⟨?_, ?_, ?_, ?_, ?_, ?_, ?_, ?_, ?_⟩, ?_, ?_⟩
    · exact h1.dev_cq
    · intro hd
      obtain ⟨h2, _, h4, h5⟩ := h1.uninit hd
      exact ⟨h2, rfl, h4, h5⟩
    · simp [cbOpen, cbStale, hce]
    · simp only [commitIds_append, commitIds_syncBlock, List.append_nil]
      exact h1.commit_nodup
    · intro i hi
      simp only [commitIds_append, commitIds_syncBlock, List.append_nil] at hi
      show i < (submit_work s).nextCb
      exact h1.commit_lt i hi
    · intro b' hb'; cases hb'
    · simp only [endIds_append, endIds_syncBlock, List.append_nil]
      exact h1.end_nodup
    · intro i hi
      simp only [endIds_append, endIds_syncBlock, List.append_nil] at hi
      show i < (submit_work s).nextCe
      exact h1.end_lt i hi
    · intro e' he'
      have he2 : (submit_work s).ce = some e' := he'
      rw [hce] at he2; cases he2
    · exact h1.qs_nonneg
    · exact h1.qs_lt

@[simp]
lemma commitIds_createBlock (i j : Nat) :
    commitIds [Event.newCommandBuffer i, Event.newComputeCommandEncoder j] = [] := rfl

@[simp]
lemma endIds_createBlock (i j : Nat) :
    endIds [Event.newCommandBuffer i, Event.newComputeCommandEncoder j] = [] := rfl

/-- Recording events that contain no `commit` and no `endEncoding` and
bumping the pending count preserves the bookkeeping invariant. -/
lemma wfcore_bump (s : MetalState) (hwfc : WFCore s) (hdev : s.device = true)
    (E : List Event) (hE1 : commitIds E = []) (hE2 : endIds E = []) :
    WFCore { s with queue_size := s.queue_size + 1, events := s.events ++ E } := by
  refine ⟨?_, ?_, ?_, ?_, ?_, ?_, ?_, ?_, ?_⟩
  · intro _; exact hwfc.dev_cq hdev
  · intro hd
    have hd' : s.device = false := hd
    rw [hdev] at hd'; cases hd'
  · exact hwfc.enc_iff
  · show (commitIds (s.events ++ E)).Nodup
    simp only [commitIds_append, hE1, List.append_nil]
    exact hwfc.commit_nodup
  · intro i hi
    have hi' : i ∈ commitIds (s.events ++ E) := hi
    simp only [commitIds_append, hE1, List.append_nil] at hi'
    exact hwfc.commit_lt i hi'
  · intro b hb
    have hb' : s.cb = some b := hb
    have hfr := hwfc.cb_fresh b hb'
    refine ⟨hfr.1, fun hst => ?_⟩
    show b.id ∉ commitIds (s.events ++ E)
    simp only [commitIds_append, hE1, List.append_nil]
    exact hfr.2 hst
  · show (endIds (s.events ++ E)).Nodup
    simp only [endIds_append, hE2, List.append_nil]
    exact hwfc.end_nodup
  · intro i hi
    have hi' : i ∈ endIds (s.events ++ E) := hi
    simp only [endIds_append, hE2, List.append_nil] at hi'
    exact hwfc.end_lt i hi'
  · intro e he
    have he' : s.ce = some e := he
    have hfr := hwfc.ce_fresh e he'
    refine ⟨hfr.1, ?_⟩
    show e ∉ endIds (s.events ++ E)
    simp only [endIds_append, hE2, List.append_nil]
    exact hfr.2

/-- Creating a fresh command buffer and a fresh encoder (releasing any
stale buffer on the way) preserves the bookkeeping invariant. -/
lemma wfcore_create (s : MetalState) (hwfc : WFCore s) (hdev : s.device = true) :
    WFCore { s with
      cb := some ⟨s.nextCb, CBStatus.notEnqueued⟩,
      ce := some s.nextCe,
      nextCb := s.nextCb + 1,
      nextCe := s.nextCe + 1,
      events := s.events ++ releaseEvents s.cb ++
        [Event.newCommandBuffer s.nextCb,
         Event.newComputeCommandEncoder s.nextCe] } := by
  have hC : commitIds (s.events ++ releaseEvents s.cb ++
      [Event.newCommandBuffer s.nextCb,
       Event.newComputeCommandEncoder s.nextCe]) = commitIds s.events := by
    simp
  have hE : endIds (s.events ++ releaseEvents s.cb ++
      [Event.newCommandBuffer s.nextCb,
       Event.newComputeCommandEncoder s.nextCe]) = endIds s.events := by
    simp
  refine ⟨?_, ?_, ?_, ?_, ?_, ?_, ?_, ?_, ?_⟩
  · intro _; exact hwfc.dev_cq hdev
  · intro hd
    have hd' : s.device = false := hd
    rw [hdev] at hd'; cases hd'
  · simp [cbOpen, cbStale]
  · show (commitIds _).Nodup
    rw [hC]; exact hwfc.commit_nodup
  · intro i hi
    have hi' : i ∈ commitIds s.events := by rw [← hC]; exact hi
    show i < s.nextCb + 1
    have := hwfc.commit_lt i hi'
    omega
  · intro b hb
    have hb' : some (⟨s.nextCb, CBStatus.notEnqueued⟩ : CmdBuf) = some b := hb
    injection hb' with hb''
    subst hb''
    constructor
    · show s.nextCb < s.nextCb + 1
      omega
    · intro _ hmem
      have hmem' : s.nextCb ∈ commitIds s.events := by rw [← hC]; exact hmem
      have := hwfc.commit_lt s.nextCb hmem'
      omega
  · show (endIds _).Nodup
    rw [hE]; exact hwfc.end_nodup
  · intro i hi
    have hi' : i ∈ endIds s.events := by rw [← hE]; exact hi
    show i < s.nextCe + 1
    have := hwfc.end_lt i hi'
    omega
  · intro e he
    have he' : some s.nextCe = some e := he
    injection he' with he''
    constructor
    · show e < s.nextCe + 1
      omega
    · intro hmem
      have hmem' : e ∈ endIds s.events := by rw [← hE]; exact hmem
      have := hwfc.end_lt e hmem'
      omega

/-- A successful `launch_kernel` preserves the invariant. -/
lemma wf_launch (k : KernelFun) (args : List Nat)
    (b1 b2 b3 t1 t2 t3 : Int) (cbOk ceOk : Bool) (s s' : MetalState)
    (hwf : WF s)
    (h : launch_kernel k args b1 b2 b3 t1 t2 t3 cbOk ceOk s = Except.ok s') :
    WF s' := by
  cases hce : s.ce with
  | some e =>
    obtain ⟨b, hcb, hst⟩ := open_of_ce s hwf.toWFCore e hce
    have hdev : s.device = true := device_of_ce s hwf.toWFCore e hce
    by_cases hpipe : k.pipelineOk = true
    · by_cases hw : k.threadExecutionWidth = 32
      · by_cases hg : wrap64 (t1 * t2 * t3) ≤ k.maxTotalThreadsPerThreadgroup
        · rw [launch_kernel_open k args b1 b2 b3 t1 t2 t3 cbOk ceOk s b e
            hcb hst hce hpipe hw hg] at h
          split at h
          · injection h with h'
            subst h'
            exact wf_submit_some _ e hce
              (wfcore_bump s hwf.toWFCore hdev _ (by simp) (by simp))
          · rename_i hcond
            injection h with h'
            subst h'
            refine ⟨wfcore_bump s hwf.toWFCore hdev _ (by simp) (by simp), ?_, ?_⟩
            · have := hwf.qs_nonneg
              show 0 ≤ s.queue_size + 1
              omega
            · intro _
              have h2 := hwf.qs_lt hdev
              show s.queue_size + 1 < s.queue_cap
              omega
        · exfalso
          rw [launch_kernel] at h
          simp [cbStale, hcb, hst, hce, hpipe, hw, hg] at h
      · exfalso
        rw [launch_kernel] at h
        simp [cbStale, hcb, hst, hce, hpipe, hw] at h
    · exfalso
      rw [launch_kernel] at h
      simp [cbStale, hcb, hst, hce, hpipe] at h
  | none =>
    have hopen : cbOpen s = false := by
      rw [← hwf.enc_iff, hce, Option.isSome_none]
    have hstale : cbStale s.cb = true := by
      simpa [cbOpen] using hopen
    by_cases hq : s.cq = true
    · by_cases hcbOk : cbOk = true
      · subst hcbOk
        by_cases hceOk : ceOk = true
        · subst hceOk
          have hdev : s.device = true := device_of_cq s hwf.toWFCore hq
          by_cases hpipe : k.pipelineOk = true
          · by_cases hw : k.threadExecutionWidth = 32
            · by_cases hg : wrap64 (t1 * t2 * t3) ≤ k.maxTotalThreadsPerThreadgroup
              · rw [launch_kernel_fresh k args b1 b2 b3 t1 t2 t3 s
                  hstale hce hq hpipe hw hg] at h
                split at h
                · injection h with h'
                  subst h'
                  exact wf_submit_some _ s.nextCe rfl
                    (wfcore_bump _ (wfcore_create s hwf.toWFCore hdev) hdev _
                      (by simp) (by simp))
                · rename_i hcond
                  injection h with h'
                  subst h'
                  refine ⟨wfcore_bump _ (wfcore_create s hwf.toWFCore hdev) hdev _
                    (by simp) (by simp), ?_, ?_⟩
                  · have := hwf.qs_nonneg
                    show 0 ≤ s.queue_size + 1
                    omega
                  · intro _
                    have h2 := hwf.qs_lt hdev
                    show s.queue_size + 1 < s.queue_cap
                    omega
              · exfalso
                rw [launch_kernel] at h
                simp [hstale, hce, hq, hpipe, hw, hg] at h
            · exfalso
              rw [launch_kernel] at h
              simp [hstale, hce, hq, hpipe, hw] at h
          · exfalso
            rw [launch_kernel] at h
            simp [hstale, hce, hq, hpipe] at h
        · exfalso
          have hceOk' : ceOk = false := by
            revert hceOk; cases ceOk <;> simp
          subst hceOk'
          rw [launch_kernel] at h
          simp [hstale, hce, hq] at h
      · exfalso
        have hcbOk' : cbOk = false := by
          revert hcbOk; cases cbOk <;> simp
        subst hcbOk'
        rw [launch_kernel] at h
        simp [hstale, hq] at h
    · exfalso
      have hq' : s.cq = false := by
        revert hq; cases s.cq <;> simp
      rw [launch_kernel] at h
      simp [hstale, hq'] at h

/-- A successful `prickle_init` preserves the invariant (provided the
capacity respects the documented positive-integer precondition). -/
lemma wf_init (c : Int) (da qo : Bool) (s s' : MetalState) (hwf : WF s)
    (hc : 1 ≤ c) (h : prickle_init c da qo s = Except.ok s') : WF s' := by
  rw [prickle_init] at h
  by_cases hd : s.device = false
  · rw [if_pos hd] at h
    obtain ⟨hcq, hcb, hce, hqs⟩ := hwf.uninit hd
    by_cases hda : (da && qo) = true
    · rw [if_pos hda] at h
      injection h with h'
      subst h'
      refine ⟨⟨?_, ?_, ?_, ?_, ?_, ?_, ?_, ?_, ?_⟩, ?_, ?_⟩
      · intro _; exact ⟨by simp [hda], hc⟩
      · intro hd'
        simp only at hd'
        rw [hd'] at hda
        simp at hda
      · simp [hce, hcb, cbOpen, cbStale]
      · exact hwf.commit_nodup
      · exact hwf.commit_lt
      · intro b hb; simp only [hcb] at hb; cases hb
      · exact hwf.end_nodup
      · exact hwf.end_lt
      · intro e he; simp only [hce] at he; cases he
      · simp [hqs]
      · intro _
        show s.queue_size < c
        omega
    · rw [if_neg hda] at h; cases h
  · rw [if_neg hd] at h
    injection h with h'
    subst h'
    exact hwf

/-- Every reachable state satisfies the invariant. -/
lemma wf_reachable (s : MetalState) (h : Reachable s) : WF s := by
  have h' : Relation.ReflTransGen Step initialState s := h
  clear h
  induction h' with
  | refl => exact wf_initial
  | tail hr hstep ih =>
    cases hstep with
    | init c da qo s1 s2 hc hinit => exact wf_init c da qo _ _ ih hc hinit
    | launch k args b1 b2 b3 t1 t2 t3 cbOk ceOk s1 s2 hl =>
      exact wf_launch k args b1 b2 b3 t1 t2 t3 cbOk ceOk _ _ ih hl
    | submit => exact wf_submit _ ih
    | syncStep => exact wf_sync _ ih

/-- A buffer slot that is open holds a buffer still accepting encoding. -/
lemma exists_of_cbOpen (s : MetalState) (h : cbOpen s = true) :
    ∃ b, s.cb = some b ∧ b.status = CBStatus.notEnqueued := by
  cases hcb : s.cb with
  | none => simp [cbOpen, cbStale, hcb] at h
  | some b =>
    refine ⟨b, rfl, ?_⟩
    cases hst : b.status with
    | notEnqueued => rfl
    | scheduled => simp [cbOpen, cbStale, hcb, hst] at h

@[simp]
lemma releaseCbCount_submitBlock (e i : Nat) :
    releaseCbCount [Event.endEncoding e, Event.commit i,
      Event.waitUntilScheduled i, Event.release_ce e] = 0 := rfl

@[simp]
lemma commitIds_cons_newCb (i : Nat) (t : List Event) :
    commitIds (Event.newCommandBuffer i :: t) = commitIds t := rfl

@[simp]
lemma commitIds_cons_newCe (i : Nat) (t : List Event) :
    commitIds (Event.newComputeCommandEncoder i :: t) = commitIds t := rfl

@[simp]
lemma endIds_cons_newCb (i : Nat) (t : List Event) :
    endIds (Event.newCommandBuffer i :: t) = endIds t := rfl

@[simp]
lemma endIds_cons_newCe (i : Nat) (t : List Event) :
    endIds (Event.newComputeCommandEncoder i :: t) = endIds t := rfl

/-! ### Claim theorems -/

/-- C2: every state of the Device Context reachable by any sequence of
`init`, `launch`, `submit`, `sync` calls from the initial state has an
encoder exactly when a command buffer is open, and its pending dispatch
count lies in `[0, N)` for the configured batch capacity `N`.  (At most
one command buffer and at most one encoder exist by construction: the
runtime keeps them in the single static slots `cb` and `ce` of
`MetalState`.) -/
theorem c2_device_context_invariant (s : MetalState) (h : Reachable s) :
    (s.ce.isSome = true ↔ cbOpen s = true) ∧
    0 ≤ s.queue_size ∧
    (s.device = true → s.queue_size < s.queue_cap) := by
  have hwf := wf_reachable s h
  refine ⟨?_, hwf.qs_nonneg, hwf.qs_lt⟩
  rw [hwf.enc_iff]

/-- Witness for C2 at the concrete reachable state reached by
`init(2)` followed by `sync()`. -/
theorem c2_device_context_invariant_witness :
    ((sync (readyState 2)).ce.isSome = true ↔ cbOpen (sync (readyState 2)) = true) ∧
    0 ≤ (sync (readyState 2)).queue_size ∧
    ((sync (readyState 2)).device = true →
      (sync (readyState 2)).queue_size < (sync (readyState 2)).queue_cap) :=
  c2_device_context_invariant (sync (readyState 2))
    (Relation.ReflTransGen.tail
      (Relation.ReflTransGen.tail Relation.ReflTransGen.refl
        (Step.init 2 true true initialState (readyState 2) (by decide) (by rfl)))
      (Step.syncStep (readyState 2)))

/-- C3 (as stated) is false: submission releases only the encoder.  With
capacity 1, the single `launch` call auto-submits its batch — the trace
records exactly one `commit` — yet the command buffer member of the pair
survives submission in the state, and no `release` was ever issued on a
command buffer. -/
def c3run : MetalState :=
  okOr (launch_kernel ⟨true, 32, 1024⟩ [] 1 1 1 1 1 1 true true (readyState 1))

theorem c3_counterexample :
    (launch_kernel ⟨true, 32, 1024⟩ [] 1 1 1 1 1 1 true true
      (readyState 1)).isOk = true ∧
    commitCount c3run.events = 1 ∧
    c3run.cb ≠ none ∧
    releaseCbCount c3run.events = 0 := by
  decide

/-- C3 amended: whenever a batch is submitted the encoder is released at
that time, while the command buffer is retained (only its status
changes); the buffer is released later, by `sync` or by the next
`launch` replacing a no-longer-open buffer.  No command buffer and no
encoder is ever reused for a later submission: their identities occur at
most once among the committed / sealed traces of any reachable state. -/
theorem c3_submit_lifecycle (s : MetalState) :
    (∀ e, s.ce = some e →
      (submit_work s).ce = none ∧
      (submit_work s).cb =
        s.cb.map (fun b => { b with status := CBStatus.scheduled }) ∧
      Event.release_ce e ∈ (submit_work s).events ∧
      releaseCbCount (submit_work s).events = releaseCbCount s.events) ∧
    (Reachable s →
      (commitIds s.events).Nodup ∧ (endIds s.events).Nodup) := by
  constructor
  · intro e hce
    have heq : submit_work s = { s with
        cb := s.cb.map (fun b => { b with status := CBStatus.scheduled }),
        ce := none,
        queue_size := 0,
        events := s.events ++
          [Event.endEncoding e, Event.commit (cbIdOf s.cb),
           Event.waitUntilScheduled (cbIdOf s.cb), Event.release_ce e] } := by
      rw [submit_work, hce]
    rw [heq]
    refine ⟨rfl, rfl, ?_, ?_⟩
    · simp
    · simp [releaseCbCount_append]
  · intro hr
    have hwf := wf_reachable s hr
    exact ⟨hwf.commit_nodup, hwf.end_nodup⟩

/-- Witness for C3 (amended) at the state reached by `init(2)` followed
by one launch, whose encoder slot holds encoder 0. -/
def c3openState : MetalState :=
  okOr (launch_kernel ⟨true, 32, 1024⟩ [] 1 1 1 1 1 1 true true (readyState 2))

theorem c3_submit_lifecycle_witness :
    (∀ e, c3openState.ce = some e →
      (submit_work c3openState).ce = none ∧
      (submit_work c3openState).cb =
        c3openState.cb.map (fun b => { b with status := CBStatus.scheduled }) ∧
      Event.release_ce e ∈ (submit_work c3openState).events ∧
      releaseCbCount (submit_work c3openState).events =
        releaseCbCount c3openState.events) ∧
    (Reachable c3openState →
      (commitIds c3openState.events).Nodup ∧ (endIds c3openState.events).Nodup) :=
  c3_submit_lifecycle c3openState

/-- C4: a first `prickle_init` call exits fatally (with the
queue-setup diagnostic) both when no device is available and when the
command queue cannot be created; it never returns a state. -/
theorem c4_init_failure_fatal (c : Int) (da qo : Bool) (s : MetalState)
    (hfirst : s.device = false) (hfail : da = false ∨ qo = false) :
    prickle_init c da qo s =
      Except.error (Fatal.commandQueueSetup,
        { s with device := da, queue_cap := c, cq := false }) := by
  have hdq : (da && qo) = false := by
    rcases hfail with h | h <;> simp [h]
  rw [prickle_init, if_pos hfirst]
  simp [hdq]

/-- Witness for C4: first init with no device available. -/
theorem c4_init_failure_fatal_witness :
    prickle_init 3 false true initialState =
      Except.error (Fatal.commandQueueSetup,
        { initialState with device := false, queue_cap := 3, cq := false }) :=
  c4_init_failure_fatal 3 false true initialState rfl (Or.inl rfl)

/-- C5: after a successful first `init(c1)`, a second `init(c2)` is a
no-op returning the very same state — same device and queue, and the
batch capacity stays `c1` — for any `c2` and any oracle outcomes. -/
theorem c5_init_idempotent (c1 c2 : Int) (da1 qo1 da2 qo2 : Bool)
    (s1 : MetalState)
    (h : prickle_init c1 da1 qo1 initialState = Except.ok s1) :
    prickle_init c2 da2 qo2 s1 = Except.ok s1 ∧ s1.queue_cap = c1 := by
  rw [prickle_init, if_pos (show initialState.device = false from rfl)] at h
  by_cases hda : (da1 && qo1) = true
  · rw [if_pos hda] at h
    have hda1 : da1 = true := by
      revert hda; cases da1 <;> simp
    injection h with h'
    subst h'
    refine ⟨?_, rfl⟩
    rw [prickle_init]
    simp [hda1]
  · rw [if_neg hda] at h
    cases h

/-- Witness for C5: init(5) then init(7) keeps the state of init(5). -/
theorem c5_init_idempotent_witness :
    prickle_init 7 true true (readyState 5) = Except.ok (readyState 5) ∧
    (readyState 5).queue_cap = 5 :=
  c5_init_idempotent 5 7 true true true true (readyState 5) rfl

/-- C6: `sync()` from any batcher state (Idle or Open) leaves the
batcher Idle: no command buffer, no encoder, pending count 0. -/
theorem c6_sync_flushes (s : MetalState) (h : IdleState s ∨ OpenState s) :
    cbOpen (sync s) = false ∧ (sync s).cb = none ∧
    (sync s).ce = none ∧ (sync s).queue_size = 0 := by
  rcases h with ⟨hopen, hce, hqs⟩ | ⟨hopen, hce, _, _⟩
  · have h1 : submit_work s = s := by rw [submit_work, hce]
    cases hcb : s.cb with
    | none =>
      have h2 : sync s = s := by rw [sync, h1]; simp [hcb]
      rw [h2]
      exact ⟨hopen, hcb, hce, hqs⟩
    | some b =>
      have h2 : sync s = { s with
          cb := none,
          events := s.events ++
            [Event.waitUntilCompleted b.id, Event.release_cb b.id] } := by
        rw [sync, h1]; simp [hcb]
      rw [h2]
      exact ⟨by simp [cbOpen, cbStale], rfl, hce, hqs⟩
  · obtain ⟨e, hcee⟩ := Option.isSome_iff_exists.mp hce
    obtain ⟨b, hcb, hst⟩ := exists_of_cbOpen s hopen
    have h1 := submit_work_eq s e b hcee hcb
    have h2 : (submit_work s).cb = some ⟨b.id, CBStatus.scheduled⟩ := by
      rw [h1]
    have h3 := sync_eq_release s ⟨b.id, CBStatus.scheduled⟩ h2
    rw [h3]
    refine ⟨by simp [cbOpen, cbStale], rfl, ?_, ?_⟩
    · show (submit_work s).ce = none
      exact submit_work_ce s
    · show (submit_work s).queue_size = 0
      rw [h1]

/-- Witness for C6 at the Idle state produced by `init(1)`. -/
theorem c6_sync_flushes_witness :
    cbOpen (sync (readyState 1)) = false ∧ (sync (readyState 1)).cb = none ∧
    (sync (readyState 1)).ce = none ∧ (sync (readyState 1)).queue_size = 0 :=
  c6_sync_flushes (readyState 1) (Or.inl ⟨rfl, rfl, rfl⟩)

@[simp]
lemma dispatchCount_single_newCb (i : Nat) :
    dispatchCount [Event.newCommandBuffer i] = 0 := rfl

@[simp]
lemma dispatchCount_single_newCe (i : Nat) :
    dispatchCount [Event.newComputeCommandEncoder i] = 0 := rfl

@[simp]
lemma dispatchCount_single_setCPS :
    dispatchCount [Event.setComputePipelineState] = 0 := rfl

@[simp]
lemma dispatchCount_cons_newCb (i : Nat) (t : List Event) :
    dispatchCount (Event.newCommandBuffer i :: t) = dispatchCount t := by
  simp [dispatchCount, List.countP_cons]

@[simp]
lemma dispatchCount_cons_newCe (i : Nat) (t : List Event) :
    dispatchCount (Event.newComputeCommandEncoder i :: t) = dispatchCount t := by
  simp [dispatchCount, List.countP_cons]

@[simp]
lemma dispatchCount_cons_setCPS (t : List Event) :
    dispatchCount (Event.setComputePipelineState :: t) = dispatchCount t := by
  simp [dispatchCount, List.countP_cons]

@[simp]
lemma dispatchCount_cons_releaseCb (i : Nat) (t : List Event) :
    dispatchCount (Event.release_cb i :: t) = dispatchCount t := by
  simp [dispatchCount, List.countP_cons]

set_option maxHeartbeats 1000000 in
/-- Classification of the fatal exits of `launch_kernel`: an assertion
failure can only arise from the thread-group-size check itself. -/
lemma launch_kernel_error_cases (k : KernelFun) (args : List Nat)
    (b1 b2 b3 t1 t2 t3 : Int) (cbOk ceOk : Bool) (s s' : MetalState)
    (e : Fatal)
    (h : launch_kernel k args b1 b2 b3 t1 t2 t3 cbOk ceOk s =
      Except.error (e, s')) :
    e = Fatal.commandBufferSetup ∨ e = Fatal.encoderSetup ∨
    e = Fatal.pipelineSetup ∨ e = Fatal.simdWidthUnsupported ∨
    (e = Fatal.assertionFailure ∧
      ¬ wrap64 (t1 * t2 * t3) ≤ k.maxTotalThreadsPerThreadgroup) := by
  rw [launch_kernel] at h
  repeat' first
    | (split at h)
    | (simp only [pure_eq_ok, ok_bind, throw_eq_error, error_bind] at h)
  all_goals first
    | (exact Except.noConfusion h)
    | (injection h with h1; injection h1 with h2 h3; subst h2; tauto)

/-- C7: a launch whose requested thread-group dimensions multiply to
more than the kernel's reported maximum fails on the fatal assertion,
and the dispatch is never issued to the device; conversely, whenever the
product does not exceed the maximum, the assertion branch is
unreachable, whatever else the call does.  (Dimensions are nonnegative
and the product stays below `2^63`, so that the `int64_t` product and
its conversion to `NS::UInteger` in the comparison are faithful.) -/
theorem c7_geometry_rejection (k : KernelFun) (args : List Nat)
    (b1 b2 b3 t1 t2 t3 : Int) (cbOk ceOk : Bool) (s : MetalState)
    (h1 : 0 ≤ t1) (h2 : 0 ≤ t2) (h3 : 0 ≤ t3)
    (hb : t1 * t2 * t3 < 2 ^ 63) :
    ((k.maxTotalThreadsPerThreadgroup : Int) < t1 * t2 * t3 →
      s.cq = true → cbOk = true → ceOk = true →
      k.pipelineOk = true → k.threadExecutionWidth = 32 →
      ∃ s', launch_kernel k args b1 b2 b3 t1 t2 t3 cbOk ceOk s =
          Except.error (Fatal.assertionFailure, s') ∧
        dispatchCount s'.events = dispatchCount s.events) ∧
    (t1 * t2 * t3 ≤ (k.maxTotalThreadsPerThreadgroup : Int) →
      ∀ e s', launch_kernel k args b1 b2 b3 t1 t2 t3 cbOk ceOk s =
          Except.error (e, s') → e ≠ Fatal.assertionFailure) := by
  have hp : 0 ≤ t1 * t2 * t3 := mul_nonneg (mul_nonneg h1 h2) h3
  constructor
  · intro hgt hcq hcbOk hceOk hpipe hw
    subst hcbOk
    subst hceOk
    have hnot : ¬ wrap64 (t1 * t2 * t3) ≤ k.maxTotalThreadsPerThreadgroup := by
      simp only [wrap64]
      omega
    cases hstale : cbStale s.cb with
    | true =>
      cases hce : s.ce with
      | none =>
        rw [launch_kernel]
        simp [hstale, hcq, hce, hpipe, hw, hnot]
      | some e0 =>
        rw [launch_kernel]
        simp [hstale, hcq, hce, hpipe, hw, hnot]
    | false =>
      cases hce : s.ce with
      | none =>
        rw [launch_kernel]
        simp [hstale, hcq, hce, hpipe, hw, hnot]
      | some e0 =>
        rw [launch_kernel]
        simp [hstale, hcq, hce, hpipe, hw, hnot]
  · intro hle e' s' herr heq
    subst heq
    rcases launch_kernel_error_cases k args b1 b2 b3 t1 t2 t3 cbOk ceOk s s'
        _ herr with hx | hx | hx | hx | ⟨_, hcontra⟩
    · exact Fatal.noConfusion hx
    · exact Fatal.noConfusion hx
    · exact Fatal.noConfusion hx
    · exact Fatal.noConfusion hx
    · refine hcontra ?_
      simp only [wrap64]
      omega

/-! ### Iterated launches: batch filling and auto-submission -/

lemma launchIter_zero (k : KernelFun) (args : List Nat)
    (b1 b2 b3 t1 t2 t3 : Int) (cbOk ceOk : Bool) (s : MetalState) :
    launchIter k args b1 b2 b3 t1 t2 t3 cbOk ceOk s 0 = Except.ok s := rfl

lemma launchIter_succ (k : KernelFun) (args : List Nat)
    (b1 b2 b3 t1 t2 t3 : Int) (cbOk ceOk : Bool) (s : MetalState) (n : Nat) :
    launchIter k args b1 b2 b3 t1 t2 t3 cbOk ceOk s (n + 1) =
      launchIter k args b1 b2 b3 t1 t2 t3 cbOk ceOk s n >>=
        fun s1 => launch_kernel k args b1 b2 b3 t1 t2 t3 cbOk ceOk s1 := rfl

/-- After `i` consecutive launches (`1 ≤ i < c`) from the post-init
state, the batch is still filling: buffer 0 and encoder 0 exist, the
pending count is `i`, and no submission has been issued. -/
lemma launchIter_filling (k : KernelFun) (args : List Nat)
    (b1 b2 b3 t1 t2 t3 : Int)
    (hpipe : k.pipelineOk = true) (hw : k.threadExecutionWidth = 32)
    (hg : wrap64 (t1 * t2 * t3) ≤ k.maxTotalThreadsPerThreadgroup)
    (c : Int) (i : Nat) (h1 : 1 ≤ i) :
    (i : Int) < c →
    ∃ s, launchIter k args b1 b2 b3 t1 t2 t3 true true (readyState c) i =
        Except.ok s ∧
      s.cb = some ⟨0, CBStatus.notEnqueued⟩ ∧ s.ce = some 0 ∧
      s.device = true ∧ s.cq = true ∧ s.queue_cap = c ∧
      s.queue_size = (i : Int) ∧ commitCount s.events = 0 := by
  induction i, h1 using Nat.le_induction with
  | base =>
    intro h2
    rw [launchIter_succ, launchIter_zero]
    simp only [ok_bind]
    rw [launch_kernel_fresh k args b1 b2 b3 t1 t2 t3 (readyState c)
      rfl rfl rfl hpipe hw hg]
    rw [if_neg (by
      show ¬((readyState c).queue_size + 1 = (readyState c).queue_cap)
      show ¬((0 : Int) + 1 = c)
      push_cast at h2
      omega)]
    refine ⟨_, rfl, rfl, rfl, rfl, rfl, rfl, ?_, ?_⟩
    · show (0 : Int) + 1 = ((1 : Nat) : Int)
      omega
    · simp [commitCount, readyState, initialState]
  | succ n hn ih =>
    intro h2
    have h2' : (n : Int) < c := by push_cast at h2 ⊢; omega
    obtain ⟨s, hs, hcb, hce, hdev, hcq, hcap, hqs, hcc⟩ := ih h2'
    rw [launchIter_succ, hs]
    simp only [ok_bind]
    rw [launch_kernel_open k args b1 b2 b3 t1 t2 t3 true true s
      ⟨0, CBStatus.notEnqueued⟩ 0 hcb rfl hce hpipe hw hg]
    rw [if_neg (by
      show ¬(s.queue_size + 1 = s.queue_cap)
      rw [hqs, hcap]
      push_cast at h2
      omega)]
    refine ⟨_, rfl, hcb, hce, hdev, hcq, hcap, ?_, ?_⟩
    · show s.queue_size + 1 = ((n + 1 : Nat) : Int)
      rw [hqs]
      omega
    · show commitCount (s.events ++ encodeEvents args b1 b2 b3 t1 t2 t3) = 0
      simp only [commitCount, commitIds_append, commitIds_encodeEvents,
        List.append_nil]
      exact hcc

/-- C1: with batch capacity `N ≥ 1` configured at init, each of the
first `N-1` launch calls leaves the batcher Open — buffer and encoder
exist, pending count equals the number of calls, no submission issued —
and the `N`-th call triggers the submission within that same call,
leaving the batcher Idle with pending count 0 and exactly one
submission in the trace. -/
theorem c1_batch_capacity (N : Nat) (hN : 1 ≤ N) (k : KernelFun)
    (args : List Nat) (b1 b2 b3 t1 t2 t3 : Int)
    (hpipe : k.pipelineOk = true) (hw : k.threadExecutionWidth = 32)
    (hg : wrap64 (t1 * t2 * t3) ≤ k.maxTotalThreadsPerThreadgroup)
    (s0 : MetalState)
    (hinit : prickle_init (N : Int) true true initialState = Except.ok s0) :
    (∀ i : Nat, 1 ≤ i → i ≤ N - 1 →
      ∃ s, launchIter k args b1 b2 b3 t1 t2 t3 true true s0 i = Except.ok s ∧
        cbOpen s = true ∧ s.ce.isSome = true ∧
        s.queue_size = (i : Int) ∧ commitCount s.events = 0) ∧
    (∃ s, launchIter k args b1 b2 b3 t1 t2 t3 true true s0 N = Except.ok s ∧
      IdleState s ∧ commitCount s.events = 1) := by
  have hs0 : s0 = readyState (N : Int) := by
    have hr : prickle_init (N : Int) true true initialState =
        Except.ok (readyState (N : Int)) := rfl
    rw [hr] at hinit
    injection hinit with h'
    exact h'.symm
  subst hs0
  obtain ⟨m, rfl⟩ : ∃ m, N = m + 1 := ⟨N - 1, by omega⟩
  constructor
  · intro i hi1 hi2
    obtain ⟨s, hs, hcb, hce, _, _, _, hqs, hcc⟩ :=
      launchIter_filling k args b1 b2 b3 t1 t2 t3 hpipe hw hg
        ((m + 1 : Nat) : Int) i hi1 (by push_cast; omega)
    exact ⟨s, hs, by simp [cbOpen, cbStale, hcb], by simp [hce], hqs, hcc⟩
  · by_cases hm : m = 0
    · subst hm
      rw [launchIter_succ, launchIter_zero]
      simp only [ok_bind]
      rw [launch_kernel_fresh k args b1 b2 b3 t1 t2 t3
        (readyState ((0 + 1 : Nat) : Int)) rfl rfl rfl hpipe hw hg]
      rw [if_pos (by
        show (readyState ((0 + 1 : Nat) : Int)).queue_size + 1 =
          (readyState ((0 + 1 : Nat) : Int)).queue_cap
        show (0 : Int) + 1 = ((0 + 1 : Nat) : Int)
        omega)]
      rw [submit_work_eq _ 0 ⟨0, CBStatus.notEnqueued⟩ rfl rfl]
      refine ⟨_, rfl, ⟨by simp [cbOpen, cbStale], rfl, rfl⟩, ?_⟩
      simp [commitCount, readyState, initialState]
    · have h1m : 1 ≤ m := by omega
      obtain ⟨s, hs, hcb, hce, hdev, hcq, hcap, hqs, hcc⟩ :=
        launchIter_filling k args b1 b2 b3 t1 t2 t3 hpipe hw hg
          ((m + 1 : Nat) : Int) m h1m (by push_cast; omega)
      rw [launchIter_succ, hs]
      simp only [ok_bind]
      rw [launch_kernel_open k args b1 b2 b3 t1 t2 t3 true true s
        ⟨0, CBStatus.notEnqueued⟩ 0 hcb rfl hce hpipe hw hg]
      rw [if_pos (by
        show s.queue_size + 1 = s.queue_cap
        rw [hqs, hcap]
        omega)]
      rw [submit_work_eq { s with
        queue_size := s.queue_size + 1,
        events := s.events ++ encodeEvents args b1 b2 b3 t1 t2 t3 }
        0 ⟨0, CBStatus.notEnqueued⟩ hce hcb]
      refine ⟨_, rfl, ⟨by simp [cbOpen, cbStale], rfl, rfl⟩, ?_⟩
      show commitCount ((s.events ++ encodeEvents args b1 b2 b3 t1 t2 t3) ++
        [Event.endEncoding 0, Event.commit 0,
         Event.waitUntilScheduled 0, Event.release_ce 0]) = 1
      simp only [commitCount, commitIds_append, commitIds_encodeEvents,
        commitIds_submitBlock, List.append_nil, List.length_append,
        List.length_singleton]
      have : (commitIds s.events).length = 0 := hcc
      omega

/-- With a non-positive capacity, every number of consecutive launches
succeeds without any submission, the pending count equalling the number
of launches made (the auto-submit test `++queue_size == queue_cap` can
never hit a capacity below 1). -/
lemma launchIter_nonpositive (k : KernelFun) (args : List Nat)
    (b1 b2 b3 t1 t2 t3 : Int)
    (hpipe : k.pipelineOk = true) (hw : k.threadExecutionWidth = 32)
    (hg : wrap64 (t1 * t2 * t3) ≤ k.maxTotalThreadsPerThreadgroup)
    (c : Int) (hc : c ≤ 0) (n : Nat) :
    ∃ s, launchIter k args b1 b2 b3 t1 t2 t3 true true (readyState c) n =
        Except.ok s ∧
      s.queue_size = (n : Int) ∧ commitCount s.events = 0 ∧
      s.queue_cap = c ∧ s.cq = true ∧ s.device = true ∧
      ((s.cb = none ∧ s.ce = none) ∨
        (∃ b e, s.cb = some b ∧ b.status = CBStatus.notEnqueued ∧
          s.ce = some e)) := by
  induction n with
  | zero =>
    exact ⟨readyState c, rfl, by simp [readyState, initialState], rfl, rfl,
      rfl, rfl, Or.inl ⟨rfl, rfl⟩⟩
  | succ n ih =>
    obtain ⟨s, hs, hqs, hcc, hcap, hcq, hdev, hslot⟩ := ih
    rw [launchIter_succ, hs]
    simp only [ok_bind]
    rcases hslot with ⟨hcb, hce⟩ | ⟨b, e, hcb, hst, hce⟩
    · rw [launch_kernel_fresh k args b1 b2 b3 t1 t2 t3 s
        (by simp [cbStale, hcb]) hce hcq hpipe hw hg]
      rw [if_neg (by
        show ¬(s.queue_size + 1 = s.queue_cap)
        rw [hqs, hcap]
        omega)]
      refine ⟨_, rfl, ?_, ?_, hcap, hcq, hdev, Or.inr ⟨_, _, rfl, rfl, rfl⟩⟩
      · show s.queue_size + 1 = ((n + 1 : Nat) : Int)
        rw [hqs]
        omega
      · show commitCount (s.events ++ releaseEvents s.cb ++
          [Event.newCommandBuffer s.nextCb,
           Event.newComputeCommandEncoder s.nextCe] ++
          encodeEvents args b1 b2 b3 t1 t2 t3) = 0
        simp only [commitCount, commitIds_append, commitIds_releaseEvents,
          commitIds_createBlock, commitIds_encodeEvents, List.append_nil]
        exact hcc
    · rw [launch_kernel_open k args b1 b2 b3 t1 t2 t3 true true s
        b e hcb hst hce hpipe hw hg]
      rw [if_neg (by
        show ¬(s.queue_size + 1 = s.queue_cap)
        rw [hqs, hcap]
        omega)]
      refine ⟨_, rfl, ?_, ?_, hcap, hcq, hdev, Or.inr ⟨b, e, hcb, hst, hce⟩⟩
      · show s.queue_size + 1 = ((n + 1 : Nat) : Int)
        rw [hqs]
        omega
      · show commitCount (s.events ++ encodeEvents args b1 b2 b3 t1 t2 t3) = 0
        simp only [commitCount, commitIds_append, commitIds_encodeEvents,
          List.append_nil]
        exact hcc

/-- C10: if `prickle_init` was given a non-positive capacity, no
sequence of launch calls ever triggers an automatic submission — after
any number `n` of launches the trace contains no `commit` and the
pending dispatch count equals `n`, growing without bound. -/
theorem c10_nonpositive_capacity_never_submits (c : Int) (hc : c ≤ 0)
    (k : KernelFun) (args : List Nat) (b1 b2 b3 t1 t2 t3 : Int)
    (hpipe : k.pipelineOk = true) (hw : k.threadExecutionWidth = 32)
    (hg : wrap64 (t1 * t2 * t3) ≤ k.maxTotalThreadsPerThreadgroup)
    (s0 : MetalState)
    (hinit : prickle_init c true true initialState = Except.ok s0) (n : Nat) :
    ∃ s, launchIter k args b1 b2 b3 t1 t2 t3 true true s0 n =
        Except.ok s ∧
      s.queue_size = (n : Int) ∧ commitCount s.events = 0 := by
  have hs0 : s0 = readyState c := by
    have hr : prickle_init c true true initialState =
        Except.ok (readyState c) := rfl
    rw [hr] at hinit
    injection hinit with h'
    exact h'.symm
  subst hs0
  obtain ⟨s, hs, hqs, hcc, _⟩ :=
    launchIter_nonpositive k args b1 b2 b3 t1 t2 t3 hpipe hw hg c hc n
  exact ⟨s, hs, hqs, hcc⟩

/-- Witness for C10: capacity 0, three launches, pending count 3 and no
submission. -/
theorem c10_nonpositive_capacity_never_submits_witness :
    ∃ s, launchIter ⟨true, 32, 1024⟩ [] 1 1 1 1 1 1 true true
        (readyState 0) 3 = Except.ok s ∧
      s.queue_size = ((3 : Nat) : Int) ∧ commitCount s.events = 0 :=
  c10_nonpositive_capacity_never_submits 0 (by omega) ⟨true, 32, 1024⟩ []
    1 1 1 1 1 1 rfl rfl (by decide) (readyState 0) rfl 3

/-- Witness for C1 with capacity 2 and a trivial kernel/geometry. -/
theorem c1_batch_capacity_witness :
    (∀ i : Nat, 1 ≤ i → i ≤ 2 - 1 →
      ∃ s, launchIter ⟨true, 32, 1024⟩ [] 1 1 1 1 1 1 true true
          (readyState ((2 : Nat) : Int)) i = Except.ok s ∧
        cbOpen s = true ∧ s.ce.isSome = true ∧
        s.queue_size = (i : Int) ∧ commitCount s.events = 0) ∧
    (∃ s, launchIter ⟨true, 32, 1024⟩ [] 1 1 1 1 1 1 true true
        (readyState ((2 : Nat) : Int)) 2 = Except.ok s ∧
      IdleState s ∧ commitCount s.events = 1) :=
  c1_batch_capacity 2 (by omega) ⟨true, 32, 1024⟩ [] 1 1 1 1 1 1
    rfl rfl (by decide) (readyState ((2 : Nat) : Int)) rfl

/-- Witness for C7: a kernel reporting a maximum thread-group size of 4,
launched with thread dimensions 2 by 2 by 2 (product 8). -/
theorem c7_geometry_rejection_witness :
    (((⟨true, 32, 4⟩ : KernelFun).maxTotalThreadsPerThreadgroup : Int) <
        2 * 2 * 2 →
      (readyState 1).cq = true → true = true → true = true →
      (⟨true, 32, 4⟩ : KernelFun).pipelineOk = true →
      (⟨true, 32, 4⟩ : KernelFun).threadExecutionWidth = 32 →
      ∃ s', launch_kernel ⟨true, 32, 4⟩ [] 1 1 1 2 2 2 true true
          (readyState 1) = Except.error (Fatal.assertionFailure, s') ∧
        dispatchCount s'.events = dispatchCount (readyState 1).events) ∧
    (2 * 2 * 2 ≤
        (((⟨true, 32, 4⟩ : KernelFun).maxTotalThreadsPerThreadgroup : Int)) →
      ∀ e s', launch_kernel ⟨true, 32, 4⟩ [] 1 1 1 2 2 2 true true
          (readyState 1) = Except.error (e, s') →
        e ≠ Fatal.assertionFailure) :=
  c7_geometry_rejection ⟨true, 32, 4⟩ [] 1 1 1 2 2 2 true true (readyState 1)
    (by decide) (by decide) (by decide) (by decide)

/-- C8: copying `n` arbitrary bytes from a host array into a buffer with
mode 1 (destination resolved as a buffer handle), then copying the
buffer back out to a host array with mode 2 (source resolved as a buffer
handle), yields content byte-identical to the original array.  The two
host regions are disjoint from the buffer's contents region, as any real
allocation guarantees (`memcpy` requires non-overlapping regions). -/
theorem c8_roundtrip_copy (mem : Int → Nat) (braw bc p q : Int) (n : Nat)
    (pc qc : Option Int)
    (hd1 : bc + n ≤ p ∨ p + n ≤ bc)
    (hd2 : bc + n ≤ q ∨ q + n ≤ bc) :
    ∃ mem1 mem2,
      copy mem ⟨braw, some bc⟩ ⟨p, pc⟩ (n : Int) 1 = some mem1 ∧
      copy mem1 ⟨q, qc⟩ ⟨braw, some bc⟩ (n : Int) 2 = some mem2 ∧
      readBytes mem2 q n = readBytes mem p n := by
  refine ⟨prickle_memcpy mem bc p (n : Int),
    prickle_memcpy (prickle_memcpy mem bc p (n : Int)) q bc (n : Int),
    ?_, ?_, ?_⟩
  · rw [copy]
    norm_num
  · rw [copy]
    norm_num
  · simp only [readBytes]
    apply List.map_congr_left
    intro i hi
    rw [List.mem_range] at hi
    show prickle_memcpy (prickle_memcpy mem bc p (n : Int)) q bc (n : Int)
        (q + (i : Int)) = mem (p + (i : Int))
    rw [prickle_memcpy, if_pos ⟨by omega, by omega⟩]
    rw [show q + (i : Int) - q = (i : Int) by ring]
    rw [prickle_memcpy, if_pos ⟨by omega, by omega⟩]
    rw [show p + (bc + (i : Int) - bc) = p + (i : Int) by ring]

/-- Witness for C8 with a concrete memory and concrete regions. -/
theorem c8_roundtrip_copy_witness :
    ∃ mem1 mem2,
      copy (fun a => a.toNat % 256) ⟨100, some 200⟩ ⟨0, none⟩ ((4 : Nat) : Int)
        1 = some mem1 ∧
      copy mem1 ⟨50, none⟩ ⟨100, some 200⟩ ((4 : Nat) : Int) 2 = some mem2 ∧
      readBytes mem2 50 4 = readBytes (fun a => a.toNat % 256) 0 4 :=
  c8_roundtrip_copy (fun a => a.toNat % 256) 100 200 0 50 4 none none
    (Or.inr (by omega)) (Or.inr (by omega))

/-- C9: only bits 0 and 1 of the `mode` argument are inspected: for
every mode value `k`, including values outside 0..3 and negative ones,
`copy` behaves exactly as with `k mod 4`. -/
theorem c9_copy_mode_mod4 (mem : Int → Nat) (dst src : CPtr) (nbytes k : Int) :
    copy mem dst src nbytes k = copy mem dst src nbytes (k % 4) := by
  simp only [copy]
  rw [Int.emod_emod_of_dvd k (by norm_num : (2 : Int) ∣ 4),
    Int.emod_emod_of_dvd k (dvd_refl 4)]

end PrickleMetal
